import Mathlib

/-!
Verification of the version resolution and upgrade-selection engine of ghavm.

The development shallowly embeds the Go source:

* `Semver`: the semantic-version parsing/comparison routines from
  `golang.org/x/mod/semver` (the library the repository uses for all version
  comparison: `IsValid`, `Compare`, `Major`, `Sort`).  Go strings are
  modelled as `List Char` / `String`; a parsed prerelease is represented by
  its list of dot-separated identifiers (for well-formed prerelease strings
  this representation is isomorphic to the flat string used by Go).
* The repository's own code: `Release`, `UpgradeCandidates`, `Action`,
  `Step` (workflow.go), `isUpgradeCandidate`, `chooseNewestRelease`,
  `doGetUpgradeCandidates`, `doGetVersionTagsForHash`,
  `doGetCommitHashForRef`, `iterAllReleases` (github client),
  `Cache.Do` (cache), `chooseUpgrade` and `resolveStep` (engine.go).
  Network interaction is modelled by explicit page lists / URL oracles so
  that "how many requests were made" is observable.
-/

namespace Semver

/-- Lexicographic byte-wise comparison of two character lists, mirroring Go's
built-in string comparison (`x < y`) for the ASCII strings compared here. -/
def cmpChars : List Char → List Char → Int
  | [], [] => 0
  | [], _ :: _ => -1
  | _ :: _, [] => 1
  | a :: as, b :: bs =>
    if a < b then -1
    else if b < a then 1
    else cmpChars as bs

/-- `isIdentChar` from x/mod/semver: ASCII letters, digits and hyphen. -/
def isIdentChar (c : Char) : Bool :=
  ( 'A' ≤ c && c ≤ 'Z') || ( 'a' ≤ c && c ≤ 'z') || ( '0' ≤ c && c ≤ '9') || c = '-'

/-- `isNum` from x/mod/semver: every character is a digit. -/
def isNum (v : List Char) : Bool :=
  v.all Char.isDigit

/-- `isBadNum` from x/mod/semver: all digits, more than one of them, and a
leading zero. -/
def isBadNum (v : List Char) : Bool :=
  v.all Char.isDigit && decide (1 < v.length) && v.head? = some '0'

/-- `parseInt` from x/mod/semver: take a leading run of digits (no leading
zero unless the number is exactly "0"), returning the digits and the rest. -/
def parseInt (v : List Char) : Option (List Char × List Char) :=
  match v with
  | [] => none
  | c :: _ =>
    if ¬ c.isDigit then none
    else
      let digits := v.takeWhile Char.isDigit
      let rest := v.dropWhile Char.isDigit
      if c = '0' ∧ digits.length ≠ 1 then none
      else some (digits, rest)

/-- `parsePrerelease` from x/mod/semver, with the prerelease represented as
its list of dot-separated identifiers.  The input must start with a hyphen;
the body runs until a plus sign or the end of the string; every character
must be an identifier character or a dot; every dot-separated identifier
must be nonempty and must not be a numeric identifier with a leading zero. -/
def parsePrerelease (v : List Char) : Option (List (List Char) × List Char) :=
  match v with
  | '-' :: rest =>
    let body := rest.takeWhile (fun c => c ≠ '+')
    let after := rest.dropWhile (fun c => c ≠ '+')
    if body.all (fun c => isIdentChar c || c = '.') then
      let segs := body.splitOn '.'
      if segs.all (fun s => ¬ s.isEmpty && ¬ isBadNum s) then
        some (segs, after)
      else none
    else none
  | _ => none

/-- `parseBuild` from x/mod/semver: a plus sign followed by dot-separated
nonempty identifiers, consuming the remainder of the string. -/
def parseBuild (v : List Char) : Option (List Char) :=
  match v with
  | '+' :: rest =>
    if rest.all (fun c => isIdentChar c || c = '.') then
      if (rest.splitOn '.').all (fun s => ¬ s.isEmpty) then some [] else none
    else none
  | _ => none

/-- The result of parsing a semantic version: the digit strings of the
major, minor and patch components and the prerelease identifiers. -/
structure Parsed where
  major : List Char
  minor : List Char
  patch : List Char
  prerelease : List (List Char)
deriving DecidableEq, Repr

/-- `parse` from x/mod/semver: "v" followed by up to three dot-separated
numbers, an optional prerelease and an optional build suffix. -/
def parse : List Char → Option Parsed
  | 'v' :: r0 =>
    match parseInt r0 with
    | none => none
    | some (major, r1) =>
      match r1 with
      | [] => some ⟨major, ['0'], ['0'], []⟩
      | '.' :: r2 =>
        match parseInt r2 with
        | none => none
        | some (minor, r3) =>
          match r3 with
          | [] => some ⟨major, minor, ['0'], []⟩
          | '.' :: r4 =>
            match parseInt r4 with
            | none => none
            | some (patch, r5) =>
              let st1 : Option (List (List Char) × List Char) :=
                match r5 with
                | '-' :: _ => parsePrerelease r5
                | _ => some ([], r5)
              match st1 with
              | none => none
              | some (pre, r6) =>
                let st2 : Option (List Char) :=
                  match r6 with
                  | '+' :: _ => parseBuild r6
                  | _ => some r6
                match st2 with
                | none => none
                | some r7 => if r7 = [] then some ⟨major, minor, patch, pre⟩ else none
          | _ => none
      | _ => none
  | _ => none

/-- `compareInt` from x/mod/semver: compare two decimal digit strings
(equal → 0, else by length, else lexicographically). -/
def compareInt (x y : List Char) : Int :=
  if x = y then 0
  else if x.length < y.length then -1
  else if y.length < x.length then 1
  else if cmpChars x y < 0 then -1
  else 1

/-- The inline identifier comparison from x/mod/semver's
`comparePrerelease` loop, for two distinct identifiers: numeric identifiers
sort before alphanumeric ones; numeric identifiers compare by length then
lexicographically; alphanumeric identifiers compare lexicographically. -/
def cmpIdent (dx dy : List Char) : Int :=
  if isNum dx ≠ isNum dy then
    (if isNum dx then -1 else 1)
  else if isNum dx ∧ dx.length ≠ dy.length then
    (if dx.length < dy.length then -1 else 1)
  else if cmpChars dx dy < 0 then -1
  else 1

/-- The identifier-list loop of x/mod/semver's `comparePrerelease`: walk the
two identifier lists in lockstep; at the first differing identifier compare
with `cmpIdent`; if one list is a proper prefix of the other, the shorter
sorts first. -/
def cmpIdents : List (List Char) → List (List Char) → Int
  | [], _ => -1
  | _ :: _, [] => 1
  | dx :: xs, dy :: ys =>
    if dx = dy then cmpIdents xs ys else cmpIdent dx dy

/-- `comparePrerelease` from x/mod/semver, on identifier lists: an absent
prerelease (empty list) sorts after any present one; otherwise compare the
identifier lists. -/
def comparePrerelease (xs ys : List (List Char)) : Int :=
  if xs = ys then 0
  else if xs = [] then 1
  else if ys = [] then -1
  else cmpIdents xs ys

/-- Chain two comparison results: the first one wins unless it is a tie. -/
def cmpThen (c next : Int) : Int :=
  if c ≠ 0 then c else next

/-- `Compare` from x/mod/semver: an invalid version sorts before every valid
version and compares equal to any other invalid version; valid versions
compare by major, minor, patch and then prerelease. -/
def Compare (v w : String) : Int :=
  match parse v.data, parse w.data with
  | none, none => 0
  | none, some _ => -1
  | some _, none => 1
  | some pv, some pw =>
    cmpThen (compareInt pv.major pw.major)
      (cmpThen (compareInt pv.minor pw.minor)
        (cmpThen (compareInt pv.patch pw.patch)
          (comparePrerelease pv.prerelease pw.prerelease)))

/-- `IsValid` from x/mod/semver. -/
def IsValid (v : String) : Bool :=
  (parse v.data).isSome

/-- `Major` from x/mod/semver: "v" plus the major digits of a valid version,
the empty string for an invalid one. -/
def Major (v : String) : String :=
  match parse v.data with
  | none => ""
  | some p => ⟨ 'v' :: p.major⟩

/-- `ByVersion.Less` from x/mod/semver's `Sort`: order by `Compare`, break
ties by plain string comparison. -/
def lessVersion (a b : String) : Bool :=
  if Compare a b ≠ 0 then decide (Compare a b < 0)
  else decide (cmpChars a.data b.data < 0)

/-- Insert into a list sorted ascending by `lessVersion`. -/
def insertLess (a : String) : List String → List String
  | [] => [a]
  | b :: l => if lessVersion b a then b :: insertLess a l else a :: b :: l

/-- `semver.Sort`: sort ascending by `lessVersion`.  Go's `sort.Sort` is
modelled by insertion sort; since `lessVersion` tie-breaks by full string
comparison the sorted permutation is unique, so any correct sorting
algorithm produces this list. -/
def sortByVersion (l : List String) : List String :=
  l.foldr insertLess []

end Semver

namespace Ghavm

/-- `Release` (workflow.go): a resolved (version, commit hash) pair. -/
structure Release where
  Version : String
  CommitHash : String
deriving DecidableEq, Repr

/-- `Release.Exists` (workflow.go): a release exists iff it is not the zero
value. -/
def Release.Exists (r : Release) : Bool :=
  decide (r ≠ { Version := "", CommitHash := "" })

/-- `UpgradeCandidates` (workflow.go). -/
structure UpgradeCandidates where
  Latest : Release
  LatestCompatible : Release
deriving DecidableEq, Repr

/-- The zero `UpgradeCandidates` value (`UpgradeCandidates{}` in Go). -/
def emptyCandidates : UpgradeCandidates :=
  { Latest := { Version := "", CommitHash := "" },
    LatestCompatible := { Version := "", CommitHash := "" } }

/-- `Action` (workflow.go). -/
structure Action where
  Name : String
  Ref : String
  Release : Release
  UpgradeCandidates : UpgradeCandidates
deriving DecidableEq, Repr

/-- `Step` (workflow.go). -/
structure Step where
  LineNumber : Nat
  Action : Action
deriving DecidableEq, Repr

/-- `PinMode` (engine.go). -/
inductive PinMode where
  | ModeCurrent
  | ModeLatest
  | ModeCompat
deriving DecidableEq, Repr

/-- `isUpgradeCandidate` (github client): the candidate is equal to or newer
than the current version under semver rules; a valid candidate always beats
an invalid current version; an invalid candidate is never an upgrade. -/
def isUpgradeCandidate (currentVersion candidateVersion : String) : Bool :=
  let currentValid := Semver.IsValid currentVersion
  let candidateValid := Semver.IsValid candidateVersion
  if currentValid && candidateValid then
    decide (Semver.Compare currentVersion candidateVersion ≤ 0)
  else if candidateValid then true
  else false

/-- `chooseNewestRelease` (github client): keep `a` only when its version is
strictly newer, otherwise return `b`. -/
def chooseNewestRelease (a b : Release) : Release :=
  if Semver.Compare a.Version b.Version = 1 then a else b

/-- The loop body of `doGetUpgradeCandidates` (github client): consume the
release stream in order; an error element aborts the whole computation; the
first candidate that fails `isUpgradeCandidate` stops the iteration; every
passing candidate updates the running latest release and, when its major
version matches the current one, the running latest compatible release. -/
def doGetUpgradeCandidatesAux (currentVersion currentMajorVersion : String)
    (latestRelease latestCompatibleRelease : Release) :
    List (Except String Release) → Except String UpgradeCandidates
  | [] => .ok { Latest := latestRelease, LatestCompatible := latestCompatibleRelease }
  | .error e :: _ => .error ("failed to gather candidate versions: " ++ e)
  | .ok candidate :: rest =>
    if ¬ isUpgradeCandidate currentVersion candidate.Version then
      .ok { Latest := latestRelease, LatestCompatible := latestCompatibleRelease }
    else
      doGetUpgradeCandidatesAux currentVersion currentMajorVersion
        (chooseNewestRelease latestRelease candidate)
        (if Semver.Major candidate.Version = currentMajorVersion then
          chooseNewestRelease latestCompatibleRelease candidate
        else latestCompatibleRelease)
        rest

/-- `doGetUpgradeCandidates` (github client), with the release stream
produced by `iterAllReleases` supplied as an explicit list. -/
def doGetUpgradeCandidates (currentRelease : Release)
    (stream : List (Except String Release)) : Except String UpgradeCandidates :=
  doGetUpgradeCandidatesAux currentRelease.Version (Semver.Major currentRelease.Version)
    { Version := "", CommitHash := "" } { Version := "", CommitHash := "" } stream

/-- `GetUpgradeCandidates` (github client): bail out early with empty
candidates when the current release has no version; otherwise run the
selector, pairing the Go (value, error) return: on failure the value is the
zero `UpgradeCandidates`. -/
def GetUpgradeCandidates (currentRelease : Release)
    (stream : List (Except String Release)) : UpgradeCandidates × Option String :=
  if currentRelease.Version = "" then (emptyCandidates, none)
  else
    match doGetUpgradeCandidates currentRelease stream with
    | .ok uc => (uc, none)
    | .error e => (emptyCandidates, some e)

/-- `strings.Cut(s, "/")`: split around the first slash. -/
def cutSlash : List Char → Option (List Char × List Char)
  | [] => none
  | c :: rest =>
    if c = '/' then some ([], rest)
    else
      match cutSlash rest with
      | some (a, b) => some (c :: a, b)
      | none => none

/-- `strings.Cut(s, "/")` on `String`s. -/
def strCutSlash (s : String) : Option (String × String) :=
  match cutSlash s.data with
  | none => none
  | some (a, b) => some (⟨a⟩, ⟨b⟩)

/-- The repository-format validation error message used by the github
client. -/
def badRepoMsg (targetRepo : String) : String :=
  "targetRepo must be specified in owner/repo format, got " ++ targetRepo

/-- A node of the `getVersionTagsForRef` GraphQL response: a tag name, the
direct target commit id and the nested (annotated-tag) target commit id. -/
structure TagNode where
  name : String
  oid : String
  nestedOid : String
deriving DecidableEq, Repr

/-- The inner collection loop of `doGetVersionTagsForHash`: from one page of
tag nodes, keep the names that are valid semver and whose direct or nested
commit id matches the commit hash. -/
def collectPage (commitHash : String) (nodes : List TagNode) : List String :=
  (nodes.filter (fun n =>
    Semver.IsValid n.name && (n.oid = commitHash || n.nestedOid = commitHash))).map TagNode.name

/-- The pagination loop of `doGetVersionTagsForHash`: fetch pages in order,
abort on a GraphQL error, and append each page's matching tags; also count
the pages fetched. -/
def gatherTags (commitHash : String) :
    List (Except String (List TagNode)) → List String → Except String (List String) × Nat
  | [], acc => (.ok acc, 0)
  | .error e :: _, _ => (.error ("graphql error: " ++ e), 1)
  | .ok nodes :: rest, acc =>
    let r := gatherTags commitHash rest (acc ++ collectPage commitHash nodes)
    (r.1, r.2 + 1)

/-- `doGetVersionTagsForHash` (github client): validate the repo format,
aggregate the matching valid semver tags across all pages, then sort them
with `semver.Sort` and reverse so the newest tag comes first.  The second
component counts the network requests made. -/
def doGetVersionTagsForHash (targetRepo commitHash : String)
    (pages : List (Except String (List TagNode))) : Except String (List String) × Nat :=
  match strCutSlash targetRepo with
  | none => (.error (badRepoMsg targetRepo), 0)
  | some _ =>
    match gatherTags commitHash pages [] with
    | (.ok tags, n) => (.ok (Semver.sortByVersion tags).reverse, n)
    | (.error e, n) => (.error e, n)

/-- A node of the `getRepositoryReleases` GraphQL response. -/
structure RelNode where
  tagName : String
  oid : String
  nestedOid : String
deriving DecidableEq, Repr

/-- The release constructed from one node by `iterAllReleases`: the nested
(annotated-tag) commit id wins over the direct one when present. -/
def relNodeRelease (n : RelNode) : Release :=
  { Version := n.tagName,
    CommitHash := if n.nestedOid ≠ "" then n.nestedOid else n.oid }

/-- The pagination loop of `iterAllReleases`: yield every node of every page
in order; a GraphQL error is yielded as the final element. -/
def iterReleasePages : List (Except String (List RelNode)) → List (Except String Release)
  | [] => []
  | .error e :: _ => [.error ("graphql error: " ++ e)]
  | .ok nodes :: rest => nodes.map (fun n => .ok (relNodeRelease n)) ++ iterReleasePages rest

/-- `iterAllReleases` (github client): the sequence of releases yielded for
a repository; an invalid repo identifier yields a single validation error
and consults no pages. -/
def iterAllReleases (targetRepo : String)
    (pages : List (Except String (List RelNode))) : List (Except String Release) :=
  match strCutSlash targetRepo with
  | none => [.error (badRepoMsg targetRepo)]
  | some _ => iterReleasePages pages

/-- `isHex` (github client): the regular expression `^[A-Fa-f0-9]+$`. -/
def isHexStr (s : String) : Bool :=
  ¬ s.data.isEmpty &&
    s.data.all (fun c => ( 'A' ≤ c && c ≤ 'F') || ( 'a' ≤ c && c ≤ 'f') || c.isDigit)

/-- The git object returned by the GitHub REST endpoints used in
`doGetCommitHashForRef` (a SHA and an object type). -/
structure GitObj where
  sha : String
  typ : String
deriving DecidableEq, Repr

/-- The branch/tag fallback chain of `doGetCommitHashForRef`, entered after
the optional commit-hash attempt: try the branch endpoint, then the tag
endpoint (dereferencing an annotated tag with one more request), else fail.
`u0` carries the URLs already requested; the result lists every URL
requested. -/
def resolveRefFallback (net : String → Except String GitObj) (owner repo ref : String)
    (u0 : List String) : Except String String × List String :=
  let headsURL := "/repos/" ++ owner ++ "/" ++ repo ++ "/git/ref/heads/" ++ ref
  let tagsURL := "/repos/" ++ owner ++ "/" ++ repo ++ "/git/ref/tags/" ++ ref
  match net headsURL with
  | .ok obj => (.ok obj.sha, u0 ++ [headsURL])
  | .error _ =>
    match net tagsURL with
    | .ok obj =>
      if obj.typ = "commit" then (.ok obj.sha, u0 ++ [headsURL, tagsURL])
      else
        let tagObjURL := "/repos/" ++ owner ++ "/" ++ repo ++ "/git/tags/" ++ obj.sha
        match net tagObjURL with
        | .ok obj2 => (.ok obj2.sha, u0 ++ [headsURL, tagsURL, tagObjURL])
        | .error _ =>
          (.error ("failed to resolve reference " ++ ref), u0 ++ [headsURL, tagsURL, tagObjURL])
    | .error _ => (.error ("failed to resolve reference " ++ ref), u0 ++ [headsURL, tagsURL])

/-- `doGetCommitHashForRef` (github client): validate the repo format, then
interpret the ref as a (possibly shortened) commit hash (only when it looks
hexadecimal), a branch, or a tag, in that order.  The second component
lists every URL requested over the network. -/
def doGetCommitHashForRef (net : String → Except String GitObj)
    (targetRepo ref : String) : Except String String × List String :=
  match strCutSlash targetRepo with
  | none => (.error (badRepoMsg targetRepo), [])
  | some (owner, repo) =>
    if isHexStr ref then
      let commitsURL := "/repos/" ++ owner ++ "/" ++ repo ++ "/commits/" ++ ref
      match net commitsURL with
      | .ok obj => (.ok obj.sha, [commitsURL])
      | .error _ => resolveRefFallback net owner repo ref [commitsURL]
    else resolveRefFallback net owner repo ref []

/-- A cache entry (cache source file): a stored value together with the
stored error. -/
structure Cache (K V : Type) where
  cache : List (K × V × Option String)
deriving Repr

/-- Lookup in the cache's map. -/
def cacheFind {K V : Type} [DecidableEq K] (c : List (K × V × Option String)) (key : K) :
    Option (V × Option String) :=
  match c with
  | [] => none
  | (k, v, e) :: rest => if k = key then some (v, e) else cacheFind rest key

/-- `Cache.Do` (cache source file): return the stored (value, error) pair on
a hit; on a miss invoke the thunk, store its (value, error) pair and return
it.  The updated cache is returned alongside the result. -/
def Cache.Do {K V : Type} [DecidableEq K] (c : Cache K V) (key : K)
    (thunk : Unit → V × Option String) : (V × Option String) × Cache K V :=
  match cacheFind c.cache key with
  | some entry => (entry, c)
  | none =>
    let r := thunk ()
    (r, ⟨(key, r.1, r.2) :: c.cache⟩)

/-- `chooseUpgrade` (engine.go): pick the release to pin for a step under a
pin mode, falling back to the current release when the wanted candidate does
not exist. -/
def chooseUpgrade (step : Step) (mode : PinMode) : Release :=
  let current := step.Action.Release
  let candidates := step.Action.UpgradeCandidates
  match mode with
  | .ModeCompat =>
    if candidates.LatestCompatible.Exists then candidates.LatestCompatible else current
  | .ModeLatest =>
    if candidates.Latest.Exists then candidates.Latest else current
  | .ModeCurrent => current

/-- Diagnostic levels (engine.go). -/
inductive Level where
  | debug
  | info
  | warn
  | error
deriving DecidableEq, Repr

/-- The outcomes of the three resolver calls a single `resolveStep`
invocation can make: ref → commit, commit → version tags and the
(value, error) pair returned by `GetUpgradeCandidates`. -/
structure ResolveEnv where
  refResult : Except String String
  tagsResult : Except String (List String)
  candidatesResult : UpgradeCandidates × Option String
deriving Repr

/-- `resolveStep` (engine.go) as explicit state passing: the returned step
is the post-state of the in-place mutation, the first component is the
returned error and the third the diagnostics recorded via the progress
logger.  Phase 1 and 2 failures return the wrapped error with the step
untouched; in phase 3 a candidate-lookup failure is only recorded as an
error-level diagnostic (and an empty candidate set as a warning), never
returned. -/
def resolveStep (env : ResolveEnv) (step : Step) (fetchUpgrades : Bool) :
    Option String × Step × List (Level × String) :=
  match env.refResult with
  | .error e =>
    (some ("failed to resolve commit hash for ref " ++ step.Action.Ref ++ ": " ++ e), step, [])
  | .ok commit =>
    match env.tagsResult with
    | .error e =>
      (some ("failed to fetch version tags for resolved commit " ++ commit ++ ": " ++ e),
        step, [])
    | .ok versions =>
      let version := match versions with | [] => "" | v :: _ => v
      let step1 : Step :=
        { step with Action :=
          { step.Action with Release := { CommitHash := commit, Version := version } } }
      if fetchUpgrades then
        let candidates := env.candidatesResult.1
        let diags : List (Level × String) :=
          match env.candidatesResult.2 with
          | some e =>
            [(Level.error,
              "failed to get upgrade candidates for version " ++ step1.Action.Release.Version
                ++ ": " ++ e)]
          | none =>
            if candidates = emptyCandidates then
              [(Level.warn,
                "no upgrade candidates found for version " ++ step1.Action.Release.Version)]
            else []
        (none,
          { step1 with Action := { step1.Action with UpgradeCandidates := candidates } },
          diags)
      else (none, step1, [])

end Ghavm

namespace Semver

theorem cmpChars_self (x : List Char) : cmpChars x x = 0 := by
  induction x with
  | nil => rfl
  | cons a as ih => simp [cmpChars, lt_irrefl, ih]

theorem cmpChars_eq_zero {x y : List Char} (h : cmpChars x y = 0) : x = y := by
  induction x generalizing y with
  | nil => cases y with
    | nil => rfl
    | cons b bs => simp [cmpChars] at h
  | cons a as ih =>
    cases y with
    | nil => simp [cmpChars] at h
    | cons b bs =>
      by_cases hab : a < b
      · simp [cmpChars, hab] at h
      · by_cases hba : b < a
        · simp [cmpChars, hab, hba] at h
        · have hab2 : a = b := le_antisymm (not_lt.mp hba) (not_lt.mp hab)
          subst hab2
          simp [cmpChars, lt_irrefl] at h
          simp [ih h]

theorem cmpChars_antisym (x y : List Char) : cmpChars y x = -cmpChars x y := by
  induction x generalizing y with
  | nil => cases y <;> simp [cmpChars]
  | cons a as ih =>
    cases y with
    | nil => simp [cmpChars]
    | cons b bs =>
      rcases lt_trichotomy a b with h | h | h
      · simp [cmpChars, h, asymm h, ne_of_lt h]
      · subst h
        simp [cmpChars, lt_irrefl, ih bs]
      · simp [cmpChars, h, asymm h, (ne_of_lt h).symm]

theorem compareInt_antisym (x y : List Char) : compareInt y x = -compareInt x y := by
  unfold compareInt
  by_cases hxy : x = y
  · simp [hxy]
  · have hyx : y ≠ x := fun h => hxy h.symm
    rcases lt_trichotomy x.length y.length with h | h | h
    · simp [hxy, hyx, h, asymm h, ne_of_lt h]
    · have hnz : cmpChars x y ≠ 0 := fun hz => hxy (cmpChars_eq_zero hz)
      rcases lt_trichotomy (cmpChars x y) 0 with hc | hc | hc
      · have : ¬ cmpChars y x < 0 := by
          rw [cmpChars_antisym x y]; omega
        simp [hxy, hyx, h, lt_irrefl, hc, this]
      · exact absurd hc hnz
      · have : cmpChars y x < 0 := by
          rw [cmpChars_antisym x y]; omega
        simp [hxy, hyx, h, lt_irrefl, not_lt.mpr (le_of_lt hc), this]
    · simp [hxy, hyx, h, asymm h, (ne_of_lt h).symm]

theorem cmpIdent_antisym {dx dy : List Char} (h : dx ≠ dy) :
    cmpIdent dy dx = -cmpIdent dx dy := by
  have hnz : cmpChars dx dy ≠ 0 := fun hz => h (cmpChars_eq_zero hz)
  have hcc : cmpChars dy dx = -cmpChars dx dy := cmpChars_antisym dx dy
  unfold cmpIdent
  by_cases hn : isNum dx = isNum dy
  · rw [if_neg (show ¬ isNum dy ≠ isNum dx from fun hne => hne hn.symm),
      if_neg (show ¬ isNum dx ≠ isNum dy from fun hne => hne hn)]
    by_cases hx : isNum dx = true
    · have hy : isNum dy = true := hn ▸ hx
      by_cases hl : dx.length = dy.length
      · rw [if_neg (show ¬ (isNum dy = true ∧ dy.length ≠ dx.length) from
            fun hc => hc.2 hl.symm),
          if_neg (show ¬ (isNum dx = true ∧ dx.length ≠ dy.length) from
            fun hc => hc.2 hl)]
        rcases lt_trichotomy (cmpChars dx dy) 0 with hc | hc | hc
        · rw [if_neg (show ¬ cmpChars dy dx < 0 by omega), if_pos hc]
          omega
        · exact absurd hc hnz
        · rw [if_pos (show cmpChars dy dx < 0 by omega),
            if_neg (show ¬ cmpChars dx dy < 0 by omega)]
      · rw [if_pos (show isNum dy = true ∧ dy.length ≠ dx.length from
            ⟨hy, fun e => hl e.symm⟩),
          if_pos (show isNum dx = true ∧ dx.length ≠ dy.length from ⟨hx, hl⟩)]
        rcases Nat.lt_trichotomy dx.length dy.length with hlt | heq | hgt
        · rw [if_pos hlt, if_neg (show ¬ dy.length < dx.length by omega)]
          omega
        · exact absurd heq hl
        · rw [if_neg (show ¬ dx.length < dy.length by omega), if_pos hgt]
    · have hy : ¬ isNum dy = true := fun hyy => hx (hn ▸ hyy)
      rw [if_neg (show ¬ (isNum dy = true ∧ dy.length ≠ dx.length) from
          fun hc => hy hc.1),
        if_neg (show ¬ (isNum dx = true ∧ dx.length ≠ dy.length) from
          fun hc => hx hc.1)]
      rcases lt_trichotomy (cmpChars dx dy) 0 with hc | hc | hc
      · rw [if_neg (show ¬ cmpChars dy dx < 0 by omega), if_pos hc]
        omega
      · exact absurd hc hnz
      · rw [if_pos (show cmpChars dy dx < 0 by omega),
          if_neg (show ¬ cmpChars dx dy < 0 by omega)]
  · rw [if_pos (show isNum dy ≠ isNum dx from fun e => hn e.symm),
      if_pos (show isNum dx ≠ isNum dy from hn)]
    cases hx : isNum dx <;> cases hy : isNum dy <;> simp_all

theorem cmpIdents_antisym {xs ys : List (List Char)} (h : xs ≠ ys) :
    cmpIdents ys xs = -cmpIdents xs ys := by
  induction xs generalizing ys with
  | nil =>
    cases ys with
    | nil => exact absurd rfl h
    | cons b bs => simp [cmpIdents]
  | cons a as ih =>
    cases ys with
    | nil => simp [cmpIdents]
    | cons b bs =>
      by_cases hab : a = b
      · subst hab
        have : as ≠ bs := fun he => h (by rw [he])
        simp [cmpIdents, ih this]
      · have hba : b ≠ a := fun he => hab he.symm
        simp [cmpIdents, hab, hba, cmpIdent_antisym hab]

theorem comparePrerelease_antisym (xs ys : List (List Char)) :
    comparePrerelease ys xs = -comparePrerelease xs ys := by
  unfold comparePrerelease
  by_cases hxy : xs = ys
  · simp [hxy]
  · have hyx : ys ≠ xs := fun h => hxy h.symm
    by_cases hx : xs = []
    · subst hx
      simp [hxy, hyx]
    · by_cases hy : ys = []
      · subst hy
        simp [hxy, hyx, hx]
      · simp [hxy, hyx, hx, hy, cmpIdents_antisym hxy]

theorem cmpThen_antisym {c c' n n' : Int} (hc : c' = -c) (hn : n' = -n) :
    cmpThen c' n' = -cmpThen c n := by
  unfold cmpThen
  by_cases h : c = 0
  · simp [h, hc, hn]
  · have h' : c' ≠ 0 := by omega
    simp [h, h', hc]

theorem Compare_antisym (v w : String) : Compare w v = -Compare v w := by
  unfold Compare
  cases hv : parse v.data <;> cases hw : parse w.data
  · rfl
  · rfl
  · rfl
  · exact cmpThen_antisym (compareInt_antisym _ _)
      (cmpThen_antisym (compareInt_antisym _ _)
        (cmpThen_antisym (compareInt_antisym _ _) (comparePrerelease_antisym _ _)))

theorem compareInt_self (x : List Char) : compareInt x x = 0 := by
  simp [compareInt]

theorem Compare_self (v : String) : Compare v v = 0 := by
  unfold Compare
  cases hv : parse v.data
  · rfl
  · simp [compareInt_self, cmpThen, comparePrerelease]

theorem lessVersion_asymm {a b : String} (h : lessVersion a b = true) :
    lessVersion b a = false := by
  unfold lessVersion at h ⊢
  by_cases hc : Compare a b = 0
  · have hc' : Compare b a = 0 := by rw [Compare_antisym a b, hc]; rfl
    simp [hc, hc'] at h ⊢
    rw [cmpChars_antisym a.data b.data]
    omega
  · have hc' : Compare b a ≠ 0 := by rw [Compare_antisym a b]; omega
    simp [hc, hc'] at h ⊢
    rw [Compare_antisym a b]
    omega

theorem lessVersion_false_nonneg {a b : String} (h : lessVersion b a = false) :
    0 ≤ Compare b a := by
  unfold lessVersion at h
  by_cases hc : Compare b a = 0
  · omega
  · simp [hc] at h
    omega

theorem mem_insertLess {x a : String} {l : List String} :
    x ∈ insertLess a l ↔ x = a ∨ x ∈ l := by
  induction l with
  | nil => simp [insertLess]
  | cons b bs ih =>
    unfold insertLess
    by_cases h : lessVersion b a = true
    · simp only [if_pos h, List.mem_cons, ih]
      tauto
    · simp only [if_neg h, List.mem_cons]

theorem head?_insertLess (a : String) (l : List String) :
    (insertLess a l).head? = some a ∨ (insertLess a l).head? = l.head? := by
  cases l with
  | nil => left; rfl
  | cons b bs =>
    unfold insertLess
    by_cases h : lessVersion b a = true
    · right; rw [if_pos h]; rfl
    · left; rw [if_neg h]; rfl

theorem chain'_insertLess {a : String} {l : List String}
    (h : List.Chain' (fun x y => lessVersion y x = false) l) :
    List.Chain' (fun x y => lessVersion y x = false) (insertLess a l) := by
  induction l with
  | nil => simp [insertLess]
  | cons b bs ih =>
    unfold insertLess
    by_cases hba : lessVersion b a = true
    · rw [if_pos hba, List.chain'_cons']
      constructor
      · intro y hy
        rcases head?_insertLess a bs with hh | hh
        · rw [hh] at hy
          simp only [Option.mem_def, Option.some.injEq] at hy
          subst hy
          exact lessVersion_asymm hba
        · rw [hh] at hy
          exact (List.chain'_cons'.mp h).1 y hy
      · exact ih h.tail
    · rw [if_neg hba, List.chain'_cons]
      exact ⟨Bool.eq_false_iff.mpr hba, h⟩

theorem chain'_sortByVersion (l : List String) :
    List.Chain' (fun x y => lessVersion y x = false) (sortByVersion l) := by
  induction l with
  | nil => simp [sortByVersion]
  | cons a as ih =>
    have : sortByVersion (a :: as) = insertLess a (sortByVersion as) := rfl
    rw [this]
    exact chain'_insertLess ih

theorem mem_sortByVersion {x : String} {l : List String} :
    x ∈ sortByVersion l ↔ x ∈ l := by
  induction l with
  | nil => simp [sortByVersion]
  | cons a as ih =>
    have h : sortByVersion (a :: as) = insertLess a (sortByVersion as) := rfl
    rw [h, mem_insertLess, ih]
    simp

end Semver

namespace Ghavm

/-- C1: `isUpgradeCandidate(current, candidate)` returns true iff either both
strings are valid semantic versions and the candidate is greater than or
equal to the current version under semver precedence (ties included), or the
candidate is valid semver while the current version is not; in every other
case it returns false. -/
theorem isUpgradeCandidate_spec (current candidate : String) :
    isUpgradeCandidate current candidate = true ↔
      ((Semver.IsValid current = true ∧ Semver.IsValid candidate = true ∧
          Semver.Compare current candidate ≤ 0)
        ∨ (Semver.IsValid candidate = true ∧ ¬ Semver.IsValid current = true)) := by
  unfold isUpgradeCandidate
  cases h1 : Semver.IsValid current <;> cases h2 : Semver.IsValid candidate <;>
    simp [h1, h2]

/-- C3: `chooseUpgrade` yields the current release in current mode; in latest
mode the latest candidate when it exists, else the current release; in
compat mode the latest compatible candidate when it exists, else the current
release. -/
theorem chooseUpgrade_spec (step : Step) :
    chooseUpgrade step .ModeCurrent = step.Action.Release
    ∧ chooseUpgrade step .ModeLatest =
        (if step.Action.UpgradeCandidates.Latest.Exists then
          step.Action.UpgradeCandidates.Latest
        else step.Action.Release)
    ∧ chooseUpgrade step .ModeCompat =
        (if step.Action.UpgradeCandidates.LatestCompatible.Exists then
          step.Action.UpgradeCandidates.LatestCompatible
        else step.Action.Release) :=
  ⟨rfl, rfl, rfl⟩

/-- C10: the absent release is a left identity for `chooseNewestRelease`: an
empty (invalid-semver) version is never ranked strictly greater than any
other version, so the selector may initialize its accumulators with it. -/
theorem chooseNewestRelease_absent_left_identity (b : Release) :
    chooseNewestRelease { Version := "", CommitHash := "" } b = b := by
  have h : Semver.Compare "" b.Version ≠ 1 := by
    unfold Semver.Compare
    cases hw : Semver.parse b.Version.data <;>
      simp [show Semver.parse ("" : String).data = none from rfl, hw]
  simp [chooseNewestRelease, h]

/-- C5: `chooseNewestRelease` returns whichever argument has the greater
semantic version under semver precedence; on equal versions (in particular
identical versions with different commit hashes) it returns its second
argument, and it is idempotent. -/
theorem chooseNewestRelease_spec (a b : Release) :
    (Semver.Compare a.Version b.Version = 1 → chooseNewestRelease a b = a)
    ∧ (Semver.Compare a.Version b.Version = -1 → chooseNewestRelease a b = b)
    ∧ (Semver.Compare a.Version b.Version = 0 → chooseNewestRelease a b = b)
    ∧ (a.Version = b.Version → chooseNewestRelease a b = b)
    ∧ chooseNewestRelease a a = a := by
  refine ⟨?_, ?_, ?_, ?_, ?_⟩
  · intro h
    unfold chooseNewestRelease
    rw [if_pos h]
  · intro h
    unfold chooseNewestRelease
    rw [if_neg (show ¬ Semver.Compare a.Version b.Version = 1 by omega)]
  · intro h
    unfold chooseNewestRelease
    rw [if_neg (show ¬ Semver.Compare a.Version b.Version = 1 by omega)]
  · intro h
    unfold chooseNewestRelease
    rw [h, if_neg (show ¬ Semver.Compare b.Version b.Version = 1 by
      rw [Semver.Compare_self]; decide)]
  · unfold chooseNewestRelease
    rw [if_neg (show ¬ Semver.Compare a.Version a.Version = 1 by
      rw [Semver.Compare_self]; decide)]

/-- Witness for C5: a strictly newer first argument wins; identical versions
with different hashes yield the second argument. -/
theorem chooseNewestRelease_spec_witness :
    chooseNewestRelease { Version := "v2.0.0", CommitHash := "aaa" }
        { Version := "v1.0.0", CommitHash := "bbb" }
      = { Version := "v2.0.0", CommitHash := "aaa" }
    ∧ chooseNewestRelease { Version := "v1.0.0", CommitHash := "aaa" }
        { Version := "v1.0.0", CommitHash := "bbb" }
      = { Version := "v1.0.0", CommitHash := "bbb" } := by
  constructor
  · exact (chooseNewestRelease_spec _ _).1 (by decide)
  · exact (chooseNewestRelease_spec _ _).2.2.2.1 rfl

/-- C2: on the spec's example (current v1.0.0; stream v2.0.0, v1.2.0,
v1.1.0, v1.0.0 with a different hash) the selector returns latest = the
v2.0.0 release and latest-compatible = the v1.2.0 release; and in general
the selector consumes the stream in order and stops at the first candidate
failing `isUpgradeCandidate`, consuming no later candidates. -/
theorem doGetUpgradeCandidates_spec :
    (doGetUpgradeCandidates { Version := "v1.0.0", CommitHash := "hash0" }
        [.ok { Version := "v2.0.0", CommitHash := "aaa111" },
         .ok { Version := "v1.2.0", CommitHash := "bbb222" },
         .ok { Version := "v1.1.0", CommitHash := "ccc333" },
         .ok { Version := "v1.0.0", CommitHash := "ddd444" }]
      = .ok { Latest := { Version := "v2.0.0", CommitHash := "aaa111" },
              LatestCompatible := { Version := "v1.2.0", CommitHash := "bbb222" } })
    ∧ (∀ (cur maj : String) (lat comp bad : Release)
        (pre rest : List (Except String Release)),
          isUpgradeCandidate cur bad.Version = false →
            doGetUpgradeCandidatesAux cur maj lat comp (pre ++ .ok bad :: rest)
              = doGetUpgradeCandidatesAux cur maj lat comp (pre ++ [.ok bad])) := by
  constructor
  · rfl
  · intro cur maj lat comp bad pre rest h
    have hbad : ¬ isUpgradeCandidate cur bad.Version = true := by simp [h]
    induction pre generalizing lat comp with
    | nil =>
      simp only [List.nil_append]
      unfold doGetUpgradeCandidatesAux
      rw [if_pos hbad, if_pos hbad]
    | cons x xs ih =>
      cases x with
      | error e => rfl
      | ok c =>
        simp only [List.cons_append]
        unfold doGetUpgradeCandidatesAux
        by_cases hc : isUpgradeCandidate cur c.Version = true
        · rw [if_neg (show ¬ ¬ isUpgradeCandidate cur c.Version = true from
              fun hn => hn hc),
            if_neg (show ¬ ¬ isUpgradeCandidate cur c.Version = true from
              fun hn => hn hc)]
          exact ih _ _
        · rw [if_pos hc, if_pos hc]

/-- Witness for C2's early-stop property: with current v1.0.0, stopping at
the failing candidate v0.9.0 makes the later v9.9.9 element irrelevant. -/
theorem doGetUpgradeCandidates_spec_witness :
    doGetUpgradeCandidatesAux "v1.0.0" "v1"
        { Version := "", CommitHash := "" } { Version := "", CommitHash := "" }
        ([.ok { Version := "v1.5.0", CommitHash := "eee" }] ++
          .ok { Version := "v0.9.0", CommitHash := "fff" } ::
            [.ok { Version := "v9.9.9", CommitHash := "ggg" }])
      = doGetUpgradeCandidatesAux "v1.0.0" "v1"
          { Version := "", CommitHash := "" } { Version := "", CommitHash := "" }
          ([.ok { Version := "v1.5.0", CommitHash := "eee" }] ++
            [.ok { Version := "v0.9.0", CommitHash := "fff" }]) :=
  doGetUpgradeCandidates_spec.2 "v1.0.0" "v1"
    { Version := "", CommitHash := "" } { Version := "", CommitHash := "" }
    { Version := "v0.9.0", CommitHash := "fff" }
    [.ok { Version := "v1.5.0", CommitHash := "eee" }]
    [.ok { Version := "v9.9.9", CommitHash := "ggg" }] (by decide)

/-- C4: the first `Cache.Do` call for a key invokes the thunk and stores the
returned (value, error) pair; every later call with the same key returns
exactly the stored pair — independently of the thunk it is given, and even
when the stored error is non-nil — without modifying the cache. -/
theorem cache_do_spec {K V : Type} [DecidableEq K] (c : Cache K V) (key : K)
    (t1 : Unit → V × Option String) (hmiss : cacheFind c.cache key = none) :
    Cache.Do c key t1 = (t1 (), ⟨(key, (t1 ()).1, (t1 ()).2) :: c.cache⟩)
    ∧ (∀ t2 : Unit → V × Option String,
        Cache.Do (Cache.Do c key t1).2 key t2 = (t1 (), (Cache.Do c key t1).2))
    ∧ (∀ (c2 : Cache K V) (entry : V × Option String)
        (t3 t4 : Unit → V × Option String),
          cacheFind c2.cache key = some entry →
            Cache.Do c2 key t3 = (entry, c2) ∧ Cache.Do c2 key t3 = Cache.Do c2 key t4) := by
  have h1 : Cache.Do c key t1 = (t1 (), ⟨(key, (t1 ()).1, (t1 ()).2) :: c.cache⟩) := by
    unfold Cache.Do
    rw [hmiss]
  refine ⟨h1, ?_, ?_⟩
  · intro t2
    rw [h1]
    unfold Cache.Do
    simp [cacheFind]
  · intro c2 entry t3 t4 hhit
    unfold Cache.Do
    rw [hhit]
    exact ⟨rfl, rfl⟩

/-- Witness for C4: a second lookup of a cached failing computation returns
the stored (value, error) pair without running the new thunk. -/
theorem cache_do_spec_witness :
    Cache.Do (Cache.Do (⟨[]⟩ : Cache Nat Nat) 1 (fun _ => (5, some "boom"))).2 1
        (fun _ => (7, none))
      = ((5, some "boom"),
          (Cache.Do (⟨[]⟩ : Cache Nat Nat) 1 (fun _ => (5, some "boom"))).2) :=
  (cache_do_spec (⟨[]⟩ : Cache Nat Nat) 1 (fun _ => (5, some "boom")) rfl).2.1
    (fun _ => (7, none))


/-- C8: when the repository identifier does not split into owner/repo around
a slash, ref-to-commit resolution, commit-to-tags lookup and release
enumeration all fail with the repository-format validation error before any
network request is made (no URL is requested, no page is fetched). -/
theorem repo_format_validation_spec (targetRepo : String)
    (h : strCutSlash targetRepo = none) :
    (∀ (net : String → Except String GitObj) (ref : String),
        doGetCommitHashForRef net targetRepo ref = (.error (badRepoMsg targetRepo), []))
    ∧ (∀ (commitHash : String) (pages : List (Except String (List TagNode))),
        doGetVersionTagsForHash targetRepo commitHash pages
          = (.error (badRepoMsg targetRepo), 0))
    ∧ (∀ pages : List (Except String (List RelNode)),
        iterAllReleases targetRepo pages = [.error (badRepoMsg targetRepo)]) := by
  refine ⟨fun net ref => ?_, fun commitHash pages => ?_, fun pages => ?_⟩
  · unfold doGetCommitHashForRef
    rw [h]
  · unfold doGetVersionTagsForHash
    rw [h]
  · unfold iterAllReleases
    rw [h]

/-- Witness for C8 on the slash-free identifier "norepo". -/
theorem repo_format_validation_spec_witness :
    doGetCommitHashForRef (fun _ => .error "x") "norepo" "main"
      = (.error (badRepoMsg "norepo"), [])
    ∧ iterAllReleases "norepo" [] = [.error (badRepoMsg "norepo")] := by
  have h := repo_format_validation_spec "norepo" (by decide)
  exact ⟨h.1 (fun _ => .error "x") "main", h.2.2 []⟩

/-- C9: a phase-1 (ref → commit) or phase-2 (commit → tags) failure makes
`resolveStep` return the wrapped error while the step is left completely
unchanged (neither Release nor UpgradeCandidates written) and no
diagnostics are recorded by the step itself. -/
theorem resolveStep_phase_error_spec (env : ResolveEnv) (step : Step) (fu : Bool) :
    (∀ e, env.refResult = .error e →
        resolveStep env step fu =
          (some ("failed to resolve commit hash for ref " ++ step.Action.Ref ++ ": " ++ e),
            step, []))
    ∧ (∀ commit e, env.refResult = .ok commit → env.tagsResult = .error e →
        resolveStep env step fu =
          (some ("failed to fetch version tags for resolved commit " ++ commit ++ ": " ++ e),
            step, [])) := by
  constructor
  · intro e he
    unfold resolveStep
    rw [he]
  · intro commit e h1 h2
    unfold resolveStep
    rw [h1, h2]

/-- Witness for C9: a concrete failing ref resolution leaves the step as it
was. -/
theorem resolveStep_phase_error_spec_witness :
    resolveStep
        { refResult := .error "nope", tagsResult := .ok [],
          candidatesResult := (emptyCandidates, none) }
        { LineNumber := 0,
          Action :=
            { Name := "a/b",
              Ref := "main",
              Release := { Version := "", CommitHash := "" },
              UpgradeCandidates := emptyCandidates } } true
      = (some ("failed to resolve commit hash for ref " ++ "main" ++ ": " ++ "nope"),
          { LineNumber := 0,
            Action :=
              { Name := "a/b",
                Ref := "main",
                Release := { Version := "", CommitHash := "" },
                UpgradeCandidates := emptyCandidates } }, []) :=
  (resolveStep_phase_error_spec
      { refResult := .error "nope", tagsResult := .ok [],
        candidatesResult := (emptyCandidates, none) }
      { LineNumber := 0,
        Action :=
          { Name := "a/b",
            Ref := "main",
            Release := { Version := "", CommitHash := "" },
            UpgradeCandidates := emptyCandidates } } true).1 "nope" rfl

/-- C7: when `GetUpgradeCandidates` fails, the value half of the pair it
returns is the zero candidates value, and `resolveStep` records an
error-level diagnostic but still returns success: the step keeps its
already-resolved commit and version and its UpgradeCandidates field is set
to the empty value. -/
theorem resolveStep_candidate_error_spec (env : ResolveEnv) (step : Step)
    (commit : String) (versions : List String) (cur : Release)
    (stream : List (Except String Release)) (e : String)
    (h1 : env.refResult = .ok commit) (h2 : env.tagsResult = .ok versions)
    (h3 : env.candidatesResult = GetUpgradeCandidates cur stream)
    (h4 : (GetUpgradeCandidates cur stream).2 = some e) :
    (GetUpgradeCandidates cur stream).1 = emptyCandidates
    ∧ resolveStep env step true =
        (none,
          { step with Action := { step.Action with
              Release := { CommitHash := commit, Version := versions.headD "" },
              UpgradeCandidates := emptyCandidates } },
          [(Level.error,
            "failed to get upgrade candidates for version " ++ versions.headD ""
              ++ ": " ++ e)]) := by
  have hval : (GetUpgradeCandidates cur stream).1 = emptyCandidates := by
    unfold GetUpgradeCandidates at h4 ⊢
    by_cases hv : cur.Version = ""
    · rw [if_pos hv] at h4
      simp at h4
    · rw [if_neg hv] at h4 ⊢
      cases hdo : doGetUpgradeCandidates cur stream with
      | ok uc => rw [hdo] at h4; simp at h4
      | error e2 => rfl
  refine ⟨hval, ?_⟩
  obtain ⟨r, t, cp⟩ := env
  change r = Except.ok commit at h1
  change t = Except.ok versions at h2
  change cp = GetUpgradeCandidates cur stream at h3
  subst h1
  subst h2
  subst h3
  cases versions with
  | nil => simp [resolveStep, hval, h4]
  | cons v vs => simp [resolveStep, hval, h4]

/-- Witness for C7: a failing release enumeration yields success for the
step, the resolved release kept and empty candidates stored. -/
theorem resolveStep_candidate_error_spec_witness :
    resolveStep
        { refResult := .ok "c0", tagsResult := .ok ["v1.2.3"],
          candidatesResult :=
            GetUpgradeCandidates { Version := "v1.0.0", CommitHash := "h0" }
              [.error "boom"] }
        { LineNumber := 0,
          Action :=
            { Name := "a/b",
              Ref := "v1",
              Release := { Version := "", CommitHash := "" },
              UpgradeCandidates := emptyCandidates } } true
      = (none,
          { LineNumber := 0,
            Action :=
              { Name := "a/b",
                Ref := "v1",
                Release := { CommitHash := "c0", Version := ["v1.2.3"].headD "" },
                UpgradeCandidates := emptyCandidates } },
          [(Level.error,
            "failed to get upgrade candidates for version " ++ ["v1.2.3"].headD ""
              ++ ": " ++ "failed to gather candidate versions: boom")]) := by
  have h := (resolveStep_candidate_error_spec
      { refResult := .ok "c0", tagsResult := .ok ["v1.2.3"],
        candidatesResult :=
          GetUpgradeCandidates { Version := "v1.0.0", CommitHash := "h0" }
            [.error "boom"] }
      { LineNumber := 0,
        Action :=
          { Name := "a/b",
            Ref := "v1",
            Release := { Version := "", CommitHash := "" },
            UpgradeCandidates := emptyCandidates } }
      "c0" ["v1.2.3"] { Version := "v1.0.0", CommitHash := "h0" }
      [.error "boom"] "failed to gather candidate versions: boom"
      rfl rfl rfl (by rfl)).2
  exact h


theorem mem_collectPage {t commitHash : String} {nodes : List TagNode}
    (h : t ∈ collectPage commitHash nodes) : Semver.IsValid t = true := by
  unfold collectPage at h
  rcases List.mem_map.mp h with ⟨n, hn, rfl⟩
  have hp := (List.mem_filter.mp hn).2
  simp only [Bool.and_eq_true] at hp
  exact hp.1

theorem gatherTags_ok_mem {commitHash : String}
    {pages : List (Except String (List TagNode))} {acc tags : List String} {n : Nat}
    (h : gatherTags commitHash pages acc = (.ok tags, n)) (t : String) :
    t ∈ tags ↔
      t ∈ acc ∨ ∃ nodes, Except.ok nodes ∈ pages ∧ t ∈ collectPage commitHash nodes := by
  induction pages generalizing acc n with
  | nil =>
    simp only [gatherTags, Prod.mk.injEq] at h
    obtain ⟨h1, _⟩ := h
    cases h1
    simp
  | cons p ps ih =>
    cases p with
    | error e => simp [gatherTags] at h
    | ok nodes =>
      unfold gatherTags at h
      rcases hg : gatherTags commitHash ps (acc ++ collectPage commitHash nodes)
        with ⟨res, m⟩
      rw [hg] at h
      simp only [Prod.mk.injEq] at h
      obtain ⟨h1, _⟩ := h
      subst h1
      rw [ih hg]
      constructor
      · intro hmem
        rcases hmem with hmem | ⟨ns, hin, hc⟩
        · rcases List.mem_append.mp hmem with ha | hc
          · exact Or.inl ha
          · exact Or.inr ⟨nodes, List.mem_cons_self _ _, hc⟩
        · exact Or.inr ⟨ns, List.mem_cons_of_mem _ hin, hc⟩
      · intro hmem
        rcases hmem with ha | ⟨ns, hin, hc⟩
        · exact Or.inl (List.mem_append_left _ ha)
        · rcases List.mem_cons.mp hin with heq | hin2
          · have : ns = nodes := by
              injection heq
            subst this
            exact Or.inl (List.mem_append_right _ hc)
          · exact Or.inr ⟨ns, hin2, hc⟩

/-- C6: on success `doGetVersionTagsForHash` returns only syntactically
valid semver tag names, aggregates the matching names across all pages, and
sorts the result in descending semver order (newest first); `resolveStep`
then records the first element as the resolved version when the list is
nonempty and the empty string otherwise, and an empty list causes no
error. -/
theorem version_tags_spec (targetRepo commitHash : String)
    (pages : List (Except String (List TagNode))) (tags : List String) (n : Nat)
    (h : doGetVersionTagsForHash targetRepo commitHash pages = (.ok tags, n)) :
    (∀ t ∈ tags, Semver.IsValid t = true)
    ∧ (∀ t, t ∈ tags ↔ ∃ nodes, Except.ok nodes ∈ pages ∧ t ∈ collectPage commitHash nodes)
    ∧ List.Chain' (fun a b => 0 ≤ Semver.Compare a b) tags
    ∧ (∀ (env : ResolveEnv) (step : Step) (fu : Bool) (commit : String),
        env.refResult = .ok commit → env.tagsResult = .ok tags →
          (resolveStep env step fu).1 = none
          ∧ (resolveStep env step fu).2.1.Action.Release.Version = tags.headD "") := by
  have hstep : ∀ (cp : UpgradeCandidates × Option String) (step : Step) (fu : Bool)
      (commit : String) (versions : List String),
        (resolveStep ⟨.ok commit, .ok versions, cp⟩ step fu).1 = none
        ∧ (resolveStep ⟨.ok commit, .ok versions, cp⟩ step fu).2.1.Action.Release.Version
            = versions.headD "" := by
    intro cp step fu commit versions
    cases versions with
    | nil =>
      cases fu with
      | false => exact ⟨rfl, rfl⟩
      | true => exact ⟨rfl, rfl⟩
    | cons v vs =>
      cases fu with
      | false => exact ⟨rfl, rfl⟩
      | true => exact ⟨rfl, rfl⟩
  unfold doGetVersionTagsForHash at h
  cases hcut : strCutSlash targetRepo with
  | none => rw [hcut] at h; simp at h
  | some ow =>
    rw [hcut] at h
    rcases hg : gatherTags commitHash pages [] with ⟨res, m⟩
    rw [hg] at h
    cases res with
    | error e => simp at h
    | ok gathered =>
      simp only [Prod.mk.injEq] at h
      obtain ⟨h1, _⟩ := h
      cases h1
      have hmemg : ∀ t, t ∈ gathered ↔
          ∃ nodes, Except.ok nodes ∈ pages ∧ t ∈ collectPage commitHash nodes := by
        intro t
        have := gatherTags_ok_mem hg t
        simpa using this
      have hmemtags : ∀ t, t ∈ (Semver.sortByVersion gathered).reverse ↔ t ∈ gathered := by
        intro t
        rw [List.mem_reverse, Semver.mem_sortByVersion]
      refine ⟨?_, ?_, ?_, ?_⟩
      · intro t ht
        rcases (hmemg t).mp ((hmemtags t).mp ht) with ⟨nodes, _, hc⟩
        exact mem_collectPage hc
      · intro t
        rw [hmemtags t, hmemg t]
      · rw [List.chain'_reverse]
        exact (Semver.chain'_sortByVersion gathered).imp
          (fun a b hab => Semver.lessVersion_false_nonneg hab)
      · intro env step fu commit h1 h2
        obtain ⟨r, t, cp⟩ := env
        change r = Except.ok commit at h1
        change t = Except.ok ((Semver.sortByVersion gathered).reverse) at h2
        subst h1
        subst h2
        exact hstep cp step fu commit ((Semver.sortByVersion gathered).reverse)

/-- Witness for C6 on a concrete two-page response: the matching valid tags
v1.0.0, v4 and v4.1.2 come back in descending semver order. -/
theorem version_tags_spec_witness :
    List.Chain' (fun a b => 0 ≤ Semver.Compare a b) ["v4.1.2", "v4", "v1.0.0"]
    ∧ Semver.IsValid "v4" = true := by
  have h := version_tags_spec "o/r" "h"
      [Except.ok [{ name := "v1.0.0", oid := "h", nestedOid := "" },
        { name := "main", oid := "h", nestedOid := "" },
        { name := "v4", oid := "h", nestedOid := "" }],
       Except.ok [{ name := "v4.1.2", oid := "", nestedOid := "h" },
        { name := "v2.0.0", oid := "zzz", nestedOid := "" }]]
      ["v4.1.2", "v4", "v1.0.0"] 2 (by rfl)
  exact ⟨h.2.2.1, h.1 "v4" (by simp)⟩

end Ghavm